import Mathlib

/-!
Verification development for the `vocllm` interactive LLM session driver.

The definitions below are a shallow embedding of the Rust sources:
  * `src/chat.rs`   — chat templates, the token-budgeted chat history, and
    prompt assembly (`ChatRole`, `ChatTemplate`, `ChatHistory`,
    `make_prompt_with_history`);
  * `src/llmcall.rs` — the autoregressive generation loop of
    `QuantizedTextGenerator::invoke_infallible`.

Modelling conventions:
  * Rust `usize` arithmetic is modelled by `Nat`; the only subtraction the
    code performs (`rough_token_count -= n`, `saturating_sub`) is either
    guarded by an invariant or saturating, matching `Nat` subtraction.
  * Rust `String` is modelled by Lean `String`; byte offsets produced by
    Rust's `str::len` are modelled as character offsets (the two coincide on
    ASCII data, and every concrete input used below is ASCII).
  * Fallible / panicking operations return `Option`; `none` models a panic.
  * The model forward pass, the repeat-penalty rescoring kernel and the
    sampler are external capabilities (candle / tokenizers); they are
    parameters of the generation loop (`GenConfig`), never interpreted.
  * The unbounded `loop` of `invoke_infallible` is given explicit fuel;
    `none` models a run that has not terminated within the fuel.
-/

namespace Vocllm

/-! ### `src/chat.rs` — roles and templates -/

/-- Embedding of `ChatRole` from `src/chat.rs`. -/
inductive ChatRole where
  | System
  | User
  | Assistant
deriving DecidableEq

/-- The `Display` impl for `ChatRole` (`"system"` / `"user"` / `"assistant"`). -/
def ChatRole.display : ChatRole → String
  | .System => "system"
  | .User => "user"
  | .Assistant => "assistant"

/-- The `Display` output of a role after Rust's `to_uppercase()`; the three
role names are ASCII so the uppercase forms are written out directly. -/
def ChatRole.display_upper : ChatRole → String
  | .System => "SYSTEM"
  | .User => "USER"
  | .Assistant => "ASSISTANT"

/-- Embedding of `ChatTemplate` from `src/chat.rs`. -/
inductive ChatTemplate where
  | ChatML
  | IMessenger
deriving DecidableEq

/-- Embedding of `ChatTemplate::apply_one`: render one `(role, message)` turn. -/
def ChatTemplate.apply_one : ChatTemplate → ChatRole → String → String
  | .ChatML, role, message =>
      "<|im_start|>" ++ role.display ++ "\n" ++ message ++ "<|im_end|>\n"
  | .IMessenger, role, message => role.display_upper ++ ": " ++ message ++ "\n"

/-- Embedding of `ChatTemplate::generation_lead`. -/
def ChatTemplate.generation_lead : ChatTemplate → String
  | .ChatML => "<|im_start|>assistant\n"
  | .IMessenger => "ASSISTANT: "

/-! ### `src/chat.rs` — the token-budgeted chat history -/

/-- Embedding of `ChatHistory` from `src/chat.rs`.  The `VecDeque` is modelled as a list
whose head is the front (oldest entry). -/
structure ChatHistory where
  rough_token_count : Nat
  token_limit : Nat
  message_queue : List (Nat × String)
deriving DecidableEq

/-- Embedding of `ChatHistory::new`. -/
def ChatHistory.new (limit : Nat) : ChatHistory :=
  { rough_token_count := 0, token_limit := limit, message_queue := [] }

/-- Embedding of `ChatTemplate::insert_history`: append every stored pre-rendered line to
the buffer, in queue (chronological) order.  The template value itself is
unused, exactly as in the source. -/
def ChatTemplate.insert_history (_t : ChatTemplate) (buf : String)
    (history : ChatHistory) : String :=
  history.message_queue.foldl (fun b p => b ++ p.2) buf

/-- Rust `str::split_whitespace().count()`: the number of maximal nonempty
runs of non-whitespace characters.  The boolean tracks whether the previous
character belonged to a word. -/
def count_words_aux : List Char → Bool → Nat
  | [], _ => 0
  | c :: rest, in_word =>
      if c.isWhitespace then count_words_aux rest false
      else (if in_word then 0 else 1) + count_words_aux rest true

/-- Word count of a message, as `message.split_whitespace().count()`. -/
def word_count (s : String) : Nat := count_words_aux s.data false

/-- The token-count heuristic of `record_message`:
`(message.split_whitespace().count() * 4) / 3` (integer division). -/
def estimate_tokens (s : String) : Nat := (word_count s * 4) / 3

/-- Sum of the per-entry estimated token counts stored in a queue. -/
def sum_counts (q : List (Nat × String)) : Nat := (q.map Prod.fst).sum

/-- The `while self.rough_token_count > self.token_limit` eviction loop of
`record_message`: pop from the front and subtract the popped count while the
total exceeds the limit.  `none` models the `panic!` branch taken when the
queue is empty while the total still exceeds the limit. -/
def evict_old_chats (limit : Nat) :
    List (Nat × String) → Nat → Option (List (Nat × String) × Nat)
  | [], total => if limit < total then none else some ([], total)
  | (n, s) :: rest, total =>
      if limit < total then evict_old_chats limit rest (total - n)
      else some ((n, s) :: rest, total)

/-- Embedding of `ChatHistory::record_message`: estimate the token count, push the entry
to the back, add the count to the running total, then run the eviction loop.
`none` models the panic inside the eviction loop. -/
def ChatHistory.record_message (h : ChatHistory) (message : String) :
    Option ChatHistory :=
  let n_new_tokens := estimate_tokens message
  let queue := h.message_queue ++ [(n_new_tokens, message)]
  let total := h.rough_token_count + n_new_tokens
  match evict_old_chats h.token_limit queue total with
  | none => none
  | some (q, t) =>
      some { rough_token_count := t, token_limit := h.token_limit,
             message_queue := q }

/-- A sequence of `record_message` calls, oldest first. -/
def record_all (h : ChatHistory) : List String → Option ChatHistory
  | [] => some h
  | m :: ms =>
      match h.record_message m with
      | none => none
      | some h2 => record_all h2 ms

/-! ### `src/chat.rs` — prompt assembly -/

/-- Embedding of `make_prompt_with_history`: build the prompt string and return it
together with the updated history (the Rust function mutates `history`
through `&mut`; the pair returns the post-call history explicitly).
`none` models a panic inside `record_message`. -/
def make_prompt_with_history (template : ChatTemplate)
    (system_prompt user_prompt : String) (additional_context : Option String)
    (history : ChatHistory) : Option (String × ChatHistory) :=
  let ret := template.apply_one .System system_prompt
  let ret := template.insert_history ret history
  let ret :=
    match additional_context with
    | some actx => ret ++ template.apply_one .System actx
    | none => ret
  let rendered_user := template.apply_one .User user_prompt
  match history.record_message rendered_user with
  | none => none
  | some h2 => some (ret ++ template.generation_lead, h2)

/-- Embedding of `make_prompt` (the stateless assembly), included for completeness. -/
def make_prompt (template : ChatTemplate)
    (system_prompt user_prompt : String)
    (additional_context : Option String) : String :=
  let ret := template.apply_one .System system_prompt
  let ret :=
    match additional_context with
    | some text => ret ++ template.apply_one .System text
    | none => ret
  ret ++ template.apply_one .User user_prompt

/-! ### `src/llmcall.rs` — the autoregressive generation loop

`QuantizedTextGenerator::invoke_infallible` owns:
  * an external tokenizer (`encode` / `decode` with a skip-special-tokens
    flag),
  * the external model forward pass `forward(window, position_offset)`
    producing logits,
  * candle's `apply_repeat_penalty` rescoring kernel,
  * a `LogitsProcessor` sampler built by
    `LogitsProcessor::new(seed, Some(temperature), top_p)` — a deterministic
    function of its internal state (seeded RNG) and the logits; it is
    modelled as a pure state-threading function `L → S → Nat × S` whose
    initial state `S` is determined by the seed and sampling parameters.

Logits are an abstract type `L` (tensors are out of scope); the three
external capabilities are parameters.  `repeat_penalty : ℚ` models the `f32`
field (every `f32` value is an exact rational, and the only operation the
loop itself performs on it is the comparison with `1.0`). -/

/-- The external tokenizer capability (`tokenizers::Tokenizer`): `encode`
models `encode(text, true).get_ids()`, `decode` models
`decode(ids, skip_special_tokens)`. -/
structure ExternalTokenizer where
  encode : String → List Nat
  decode : List Nat → Bool → String

/-- The per-invocation configuration of the generation loop: the external
model and sampler capabilities plus the generator's scalar fields. -/
structure GenConfig (L S : Type) where
  forward : List Nat → Nat → L
  apply_repeat_penalty : L → Rat → List Nat → L
  sample : L → S → Nat × S
  repeat_penalty : Rat
  repeat_last_n : Nat
  eos : Nat

/-- Observable record of one iteration of the generation loop: the token
sequence at iteration entry, the window and offset passed to the model
forward, the raw logits, the repeat-penalty window actually used (`none`
when the `repeat_penalty != 1.0` branch is not taken), the logits handed to
the sampler, and the sampled token. -/
structure StepInfo (L : Type) where
  tokens_before : List Nat
  ctx : List Nat
  seqoff : Nat
  raw_logits : L
  repeat_window : Option (List Nat)
  final_logits : L
  sampled : Nat
deriving DecidableEq

/-- One iteration of the `loop` in `invoke_infallible`: choose the context
window and offset (`flag` is the source's prefill flag), run the model
forward, optionally apply the repeat penalty over
`&tokens[tokens.len().saturating_sub(repeat_last_n)..]`, sample, and push
the sampled token.  Returns the step record, the grown token sequence and
the new sampler state. -/
def gen_step {L S : Type} (cfg : GenConfig L S) (tokens : List Nat)
    (flag : Bool) (s : S) : StepInfo L × List Nat × S :=
  let cs :=
    if flag then (tokens, 0)
    else (tokens.drop (tokens.length - 1), tokens.length - 1)
  let raw := cfg.forward cs.1 cs.2
  let wl :=
    if cfg.repeat_penalty ≠ 1 then
      let w := tokens.drop (tokens.length - cfg.repeat_last_n)
      (some w, cfg.apply_repeat_penalty raw cfg.repeat_penalty w)
    else (none, raw)
  let ns := cfg.sample wl.2 s
  (⟨tokens, cs.1, cs.2, raw, wl.1, wl.2, ns.1⟩, tokens ++ [ns.1], ns.2)

/-- The `loop` of `invoke_infallible`, with explicit fuel.  On termination
it returns the final token sequence, the trace of iteration records (one per
sampled token, so the trace length is the source's `generation_count`), and
the final sampler state; `none` means the fuel ran out before EOS. -/
def gen_loop {L S : Type} (cfg : GenConfig L S) :
    Nat → List Nat → Bool → S → Option (List Nat × List (StepInfo L) × S)
  | 0, _, _, _ => none
  | fuel + 1, tokens, flag, s =>
      let r := gen_step cfg tokens flag s
      if r.1.sampled = cfg.eos then some (r.2.1, [r.1], r.2.2)
      else
        match gen_loop cfg fuel r.2.1 false r.2.2 with
        | none => none
        | some (t, tr, s3) => some (t, r.1 :: tr, s3)

/-- Rust's byte slice `s[n..]`, modelled at character granularity (the two
agree on ASCII data; see the module conventions): the suffix of the text
from offset `n` when `n` is within bounds, and `none` — modelling the
out-of-bounds slice panic Rust raises when `n` exceeds `s.len()` — when it
is not. -/
def string_slice_from (s : String) (n : Nat) : Option String :=
  if n ≤ s.data.length then some (String.mk (s.data.drop n)) else none

/-- Embedding of `QuantizedTextGenerator::invoke_infallible`: encode the prompt, run the
generation loop, decode the full accumulated token sequence with
skip-special-tokens set, and return the decoded text with the first
`prompt.len()` units sliced off.  `none` models a run that does not
terminate within the fuel, or the slice panic raised when the decoded text
is shorter than the prompt text. -/
def invoke_infallible {L S : Type} (cfg : GenConfig L S)
    (tok : ExternalTokenizer) (fuel : Nat) (s : S) (prompt : String) :
    Option String :=
  let tokens := tok.encode prompt
  match gen_loop cfg fuel tokens true s with
  | none => none
  | some (final_tokens, _, _) =>
      string_slice_from (tok.decode final_tokens true) prompt.length

/-! ### Generation loop: stub capabilities used by concrete runs -/

/-- Per-token decoded text of the C3 stub tokenizer: token 5 ↦ `"AAA"`
(decoding expands the prompt's token), token 6 ↦ `"B"`, every other token
(the EOS token 7) ↦ `""`. -/
def c3_piece : Nat → List Char
  | 5 => ['A', 'A', 'A']
  | 6 => ['B']
  | _ => []

/-- C3 stub tokenizer: the prompt `"A"` encodes to the single token `[5]`,
whose skip-special decode `"AAA"` is longer than the prompt text, so the
source's slice stays in bounds but lands inside the prompt's own decoded
text. -/
def c3_tok : ExternalTokenizer :=
  { encode := fun _ => [5],
    decode := fun ids _ => String.mk ((ids.map c3_piece).flatten) }

/-- C3 stub generation configuration: the sampler emits token 6 on the
first step and the EOS token 7 on the second; the repeat penalty is 1. -/
def c3_cfg : GenConfig Unit Nat :=
  { forward := fun _ _ => (), apply_repeat_penalty := fun _ _ _ => (),
    sample := fun _ s => (if s = 0 then 6 else 7, s + 1),
    repeat_penalty := 1, repeat_last_n := 64, eos := 7 }

/-- Per-token decoded text of the C4 stub tokenizer: the EOS token 9 ↦ `""`
(skipped as a special token), every other token ↦ `"x"`. -/
def c4_piece : Nat → List Char
  | 9 => []
  | _ => ['x']

/-- C4 stub tokenizer: the prompt `"ab"` encodes to `[1, 2]`. -/
def c4_tok : ExternalTokenizer :=
  { encode := fun _ => [1, 2],
    decode := fun ids _ => String.mk ((ids.map c4_piece).flatten) }

/-- C4 stub configuration, realising the spec's termination scenario: the
sampler emits tokens 10, 11, 12, 13 on the first four decode steps and the
EOS token 9 on the fifth. -/
def c4_cfg : GenConfig Unit Nat :=
  { forward := fun _ _ => (), apply_repeat_penalty := fun _ _ _ => (),
    sample := fun _ s => (if 4 ≤ s then 9 else 10 + s, s + 1),
    repeat_penalty := 1, repeat_last_n := 64, eos := 9 }

/-- Final token sequence of the C4 stub run. -/
def c4_T : List Nat := [1, 2, 10, 11, 12, 13, 9]

/-- Trace of the C4 stub run: the prefill over the whole prompt at offset 0,
then four single-token decode steps, the last sampling EOS. -/
def c4_tr : List (StepInfo Unit) :=
  [⟨[1, 2], [1, 2], 0, (), none, (), 10⟩,
   ⟨[1, 2, 10], [10], 2, (), none, (), 11⟩,
   ⟨[1, 2, 10, 11], [11], 3, (), none, (), 12⟩,
   ⟨[1, 2, 10, 11, 12], [12], 4, (), none, (), 13⟩,
   ⟨[1, 2, 10, 11, 12, 13], [13], 5, (), none, (), 9⟩]

/-- C6/C7 stub configuration with an active repeat penalty (`2 ≠ 1`), a
window size of 2, and a sampler that immediately emits the EOS token 7. -/
def c6_cfg : GenConfig Unit Nat :=
  { forward := fun _ _ => (), apply_repeat_penalty := fun _ _ _ => (),
    sample := fun _ s => (7, s + 1),
    repeat_penalty := 2, repeat_last_n := 2, eos := 7 }

/-- The single step record of the C6 stub run. -/
def c6_step : StepInfo Unit := ⟨[1, 2], [1, 2], 0, (), some [1, 2], (), 7⟩

/-- C7 stub configuration over numeric logits: the forward pass returns
`ctx.length + offset`, the rescoring kernel (were it invoked) would add
1000, and `repeat_penalty = 1`. -/
def c7_cfg : GenConfig Nat Nat :=
  { forward := fun ctx off => ctx.length + off,
    apply_repeat_penalty := fun l _ _ => l + 1000,
    sample := fun _ s => (7, s + 1),
    repeat_penalty := 1, repeat_last_n := 3, eos := 7 }

/-- The single step record of the C7 stub run: raw and final logits agree
(both 2) even though the rescoring kernel would have produced 1002. -/
def c7_step : StepInfo Nat := ⟨[1, 2], [1, 2], 0, 2, none, 2, 7⟩

/-! ### Chat-history lemmas -/

theorem sum_counts_nil : sum_counts [] = 0 := rfl

theorem sum_counts_cons (p : Nat × String) (q : List (Nat × String)) :
    sum_counts (p :: q) = p.1 + sum_counts q := by
  simp [sum_counts]

theorem sum_counts_append (a b : List (Nat × String)) :
    sum_counts (a ++ b) = sum_counts a + sum_counts b := by
  simp [sum_counts]

/-- Master lemma on the eviction loop: started on a queue together with the
exact sum of its counts, it drops the least prefix whose removal brings the
sum within the limit, never takes the panic branch, and returns the exact
sum of the remaining counts. -/
theorem evict_old_chats_spec (limit : Nat) (q : List (Nat × String)) :
    ∃ k, k ≤ q.length ∧
      evict_old_chats limit q (sum_counts q) =
        some (q.drop k, sum_counts (q.drop k)) ∧
      sum_counts (q.drop k) ≤ limit ∧
      ∀ j, j < k → limit < sum_counts (q.drop j) := by
  induction q with
  | nil =>
      refine ⟨0, Nat.le_refl 0, ?_, ?_, ?_⟩
      · simp [evict_old_chats, sum_counts]
      · simp [sum_counts]
      · intro j hj; omega
  | cons p rest ih =>
      obtain ⟨n, str⟩ := p
      by_cases hlt : limit < sum_counts ((n, str) :: rest)
      · obtain ⟨k, hk, heq, hle, hmin⟩ := ih
        refine ⟨k + 1, by simpa using Nat.succ_le_succ hk, ?_, ?_, ?_⟩
        · have hsub : sum_counts ((n, str) :: rest) - n = sum_counts rest := by
            rw [sum_counts_cons]; omega
          rw [evict_old_chats, if_pos hlt, hsub, List.drop_succ_cons]
          exact heq
        · simpa using hle
        · intro j hj
          match j with
          | 0 => simpa using hlt
          | j' + 1 =>
              rw [List.drop_succ_cons]
              exact hmin j' (by omega)
      · refine ⟨0, Nat.zero_le _, ?_, ?_, ?_⟩
        · rw [evict_old_chats, if_neg hlt]
          rfl
        · simpa using Nat.le_of_not_lt hlt
        · intro j hj; omega

/-- Behaviour of `record_message` on a history whose running total is exact: the new
entry `(estimate_tokens m, m)` is appended at the back, and then the least
number of entries is evicted from the front to bring the total within the
budget; the call never panics and the returned total is again exact. -/
theorem record_message_spec (h : ChatHistory) (m : String)
    (hinv : h.rough_token_count = sum_counts h.message_queue) :
    ∃ k, k ≤ (h.message_queue ++ [(estimate_tokens m, m)]).length ∧
      h.record_message m =
        some { rough_token_count :=
                 sum_counts ((h.message_queue ++ [(estimate_tokens m, m)]).drop k),
               token_limit := h.token_limit,
               message_queue :=
                 (h.message_queue ++ [(estimate_tokens m, m)]).drop k } ∧
      sum_counts ((h.message_queue ++ [(estimate_tokens m, m)]).drop k) ≤
        h.token_limit ∧
      ∀ j, j < k →
        h.token_limit <
          sum_counts ((h.message_queue ++ [(estimate_tokens m, m)]).drop j) := by
  obtain ⟨k, hk, heq, hle, hmin⟩ :=
    evict_old_chats_spec h.token_limit (h.message_queue ++ [(estimate_tokens m, m)])
  refine ⟨k, hk, ?_, hle, hmin⟩
  have htot : h.rough_token_count + estimate_tokens m =
      sum_counts (h.message_queue ++ [(estimate_tokens m, m)]) := by
    rw [hinv, sum_counts_append, sum_counts_cons, sum_counts_nil]
    rfl
  have hdef : h.record_message m =
      match evict_old_chats h.token_limit
          (h.message_queue ++ [(estimate_tokens m, m)])
          (h.rough_token_count + estimate_tokens m) with
      | none => none
      | some (q, t) =>
          some { rough_token_count := t, token_limit := h.token_limit,
                 message_queue := q } := rfl
  rw [hdef, htot, heq]

/-- Recording preserves the "exact total within budget" state. -/
theorem record_message_good (h : ChatHistory) (m : String)
    (hinv : h.rough_token_count = sum_counts h.message_queue) :
    ∃ h2, h.record_message m = some h2 ∧ h2.token_limit = h.token_limit ∧
      h2.rough_token_count = sum_counts h2.message_queue ∧
      sum_counts h2.message_queue ≤ h.token_limit := by
  obtain ⟨k, _, heq, hle, _⟩ := record_message_spec h m hinv
  exact ⟨_, heq, rfl, rfl, hle⟩

/-- Running `record_all` from a history with an exact running total never panics
and lands in a state with an exact total; if at least one message is
recorded the final total is within the budget. -/
theorem record_all_good (msgs : List String) : ∀ h : ChatHistory,
    h.rough_token_count = sum_counts h.message_queue →
    ∃ h2, record_all h msgs = some h2 ∧ h2.token_limit = h.token_limit ∧
      h2.rough_token_count = sum_counts h2.message_queue ∧
      (sum_counts h2.message_queue ≤ h.token_limit ∨ h2 = h) := by
  induction msgs with
  | nil => intro h hinv; exact ⟨h, rfl, rfl, hinv, Or.inr rfl⟩
  | cons m ms ih =>
      intro h hinv
      obtain ⟨h1, heq1, hlim1, hinv1, hle1⟩ := record_message_good h m hinv
      obtain ⟨h2, heq2, hlim2, hinv2, hle2⟩ := ih h1 hinv1
      refine ⟨h2, ?_, hlim2.trans hlim1, hinv2, ?_⟩
      · unfold record_all
        rw [heq1]
        exact heq2
      · rcases hle2 with hle2 | hle2
        · exact Or.inl (by rw [hlim1] at hle2; exact hle2)
        · exact Or.inl (by rw [hle2]; exact hle1)

/-- C1.  History budget invariant: after every sequence of `record_message`
calls on a fresh `ChatHistory` with budget `limit`, the sum of the stored
per-entry estimated token counts is at most `limit` — in fact
unconditionally, so in particular in every case other than the
single-oversized-entry case the claim allows for (that case never yields a
total above the budget either: the oversized entry is itself evicted). -/
theorem history_budget_invariant (limit : Nat) (msgs : List String)
    (h2 : ChatHistory)
    (hrun : record_all (ChatHistory.new limit) msgs = some h2) :
    sum_counts h2.message_queue ≤ limit := by
  obtain ⟨h3, heq, hlim, hinv, hle⟩ :=
    record_all_good msgs (ChatHistory.new limit) rfl
  rw [hrun] at heq
  obtain rfl : h2 = h3 := by injection heq
  rcases hle with hle | hle
  · exact hle
  · rw [hle]
    exact Nat.zero_le _

/-- Witness for C1 on a concrete run: budget 5, two messages, the second of
which forces an eviction. -/
theorem history_budget_invariant_witness :
    sum_counts
      (ChatHistory.mk 5 5 [(5, "c d e f")]).message_queue ≤ 5 :=
  history_budget_invariant 5 ["a b", "c d e f"]
    (ChatHistory.mk 5 5 [(5, "c d e f")]) (by decide)

/-- C8.  `record_message` estimates the token count of the message as
`(word_count * 4) / 3` (integer division), appends the `(count, message)`
pair at the back of the queue, adds the count to the running total, and then
evicts entries strictly from the front — oldest first, i.e. it removes
exactly the `k`-entry prefix for the least `k` that brings the total within
the budget — subtracting each evicted entry's count, so the resulting total
is the exact sum of the remaining counts. -/
theorem record_message_append_then_evict (h : ChatHistory) (m : String)
    (hinv : h.rough_token_count = sum_counts h.message_queue) :
    ∃ k, k ≤ (h.message_queue ++ [((word_count m * 4) / 3, m)]).length ∧
      h.record_message m =
        some { rough_token_count :=
                 sum_counts
                   ((h.message_queue ++ [((word_count m * 4) / 3, m)]).drop k),
               token_limit := h.token_limit,
               message_queue :=
                 (h.message_queue ++ [((word_count m * 4) / 3, m)]).drop k } ∧
      sum_counts ((h.message_queue ++ [((word_count m * 4) / 3, m)]).drop k) ≤
        h.token_limit ∧
      ∀ j, j < k →
        h.token_limit <
          sum_counts
            ((h.message_queue ++ [((word_count m * 4) / 3, m)]).drop j) :=
  record_message_spec h m hinv

/-- Witness for C8 at a concrete history and message: budget 10, stored
entries `(3, "x x x x") (2, "y y")`, new message estimated at 8 tokens, so
exactly the oldest entry is evicted (total 13, then 10 ≤ 10). -/
theorem record_message_append_then_evict_witness :
    ∃ k, k ≤ ([(3, "x x x x"), (2, "y y")] ++
        [((word_count "a b c d e f" * 4) / 3, "a b c d e f")]).length ∧
      (ChatHistory.mk 5 10 [(3, "x x x x"), (2, "y y")]).record_message
          "a b c d e f" =
        some { rough_token_count :=
                 sum_counts
                   (([(3, "x x x x"), (2, "y y")] ++
                     [((word_count "a b c d e f" * 4) / 3, "a b c d e f")]).drop k),
               token_limit := 10,
               message_queue :=
                 ([(3, "x x x x"), (2, "y y")] ++
                   [((word_count "a b c d e f" * 4) / 3, "a b c d e f")]).drop k } ∧
      sum_counts (([(3, "x x x x"), (2, "y y")] ++
          [((word_count "a b c d e f" * 4) / 3, "a b c d e f")]).drop k) ≤ 10 ∧
      ∀ j, j < k →
        10 <
          sum_counts (([(3, "x x x x"), (2, "y y")] ++
            [((word_count "a b c d e f" * 4) / 3, "a b c d e f")]).drop j) :=
  record_message_append_then_evict
    (ChatHistory.mk 5 10 [(3, "x x x x"), (2, "y y")]) "a b c d e f" (by decide)

/-- C10.  `record_message` always terminates without reaching its panic
branch: any sequence of calls starting from a fresh history succeeds, and in
the case where a single message's estimated count alone exceeds the budget
the eviction loop removes every entry — including the just-inserted message
itself — leaving the history empty with running total `0`, so the
"nothing left to pop" panic (modelled by `none`) is unreachable. -/
theorem record_message_never_panics (limit : Nat) (msgs : List String) :
    (record_all (ChatHistory.new limit) msgs).isSome = true ∧
    ∀ h : ChatHistory, ∀ m : String,
      h.rough_token_count = sum_counts h.message_queue →
      h.token_limit < estimate_tokens m →
      h.record_message m =
        some { rough_token_count := 0, token_limit := h.token_limit,
               message_queue := [] } := by
  constructor
  · obtain ⟨h2, heq, _, _, _⟩ := record_all_good msgs (ChatHistory.new limit) rfl
    rw [heq]
    rfl
  · intro h m hinv hover
    obtain ⟨k, hk, heq, hle, hmin⟩ := record_message_spec h m hinv
    have hqlen : (h.message_queue ++ [(estimate_tokens m, m)]).length =
        h.message_queue.length + 1 := by simp
    have hk2 : k = (h.message_queue ++ [(estimate_tokens m, m)]).length := by
      by_contra hne
      have hk3 : k ≤ h.message_queue.length := by omega
      have hsum : sum_counts ((h.message_queue ++ [(estimate_tokens m, m)]).drop k) =
          sum_counts (h.message_queue.drop k) + estimate_tokens m := by
        rw [List.drop_append_of_le_length hk3, sum_counts_append,
          sum_counts_cons, sum_counts_nil]
        rfl
      omega
    rw [hk2, List.drop_length] at heq
    exact heq

/-- Witness for C10: budget 3, a message estimated at 8 tokens; the run
succeeds and the oversized message empties the history. -/
theorem record_message_never_panics_witness :
    (record_all (ChatHistory.new 3) ["a b c d e f"]).isSome = true ∧
    (ChatHistory.mk 0 3 []).record_message "a b c d e f" =
      some { rough_token_count := 0, token_limit := 3, message_queue := [] } :=
  ⟨(record_message_never_panics 3 ["a b c d e f"]).1,
    (record_message_never_panics 3 ["a b c d e f"]).2
      (ChatHistory.mk 0 3 []) "a b c d e f" (by decide) (by decide)⟩

/-! ### Prompt assembly (C2) -/

/-- Appending to a buffer via `insert_history` equals appending the
history's text rendered from the empty buffer. -/
theorem insert_history_append (t : ChatTemplate) (buf : String)
    (h : ChatHistory) :
    t.insert_history buf h = buf ++ t.insert_history "" h := by
  unfold ChatTemplate.insert_history
  generalize h.message_queue = q
  induction q generalizing buf with
  | nil => simp [String.append_empty]
  | cons p rest ih =>
      rw [List.foldl_cons, List.foldl_cons, ih (buf ++ p.2), ih ("" ++ p.2),
        String.empty_append, String.append_assoc]

/-- C2 counterexample: on template `IMessenger`, system prompt `"s"`, user
prompt `"u"`, no context and a fresh history, the returned string is
`"SYSTEM: s\nASSISTANT: "`; the concatenation demanded by the claim — which
includes the rendered user turn before the generation lead — differs from
it. -/
theorem make_prompt_with_history_counterexample :
    (make_prompt_with_history .IMessenger "s" "u" none
        (ChatHistory.new 100)).map Prod.fst = some "SYSTEM: s\nASSISTANT: " ∧
    "SYSTEM: s\nASSISTANT: " ≠
      ChatTemplate.IMessenger.apply_one .System "s" ++
        ChatTemplate.IMessenger.insert_history "" (ChatHistory.new 100) ++
        ChatTemplate.IMessenger.apply_one .User "u" ++
        ChatTemplate.IMessenger.generation_lead := by
  exact ⟨by decide, by decide⟩

/-- C2 amended.  `make_prompt_with_history` returns the concatenation of the
rendered system turn, the history's stored pre-rendered text in
chronological order, the optional context rendered as a system-role turn,
and finally the generation lead; the rendered user turn is recorded into
history as a side effect but is NOT part of the returned string (it will
only appear in prompts of later calls, replayed from history). -/
theorem make_prompt_with_history_output (template : ChatTemplate)
    (system_prompt user_prompt : String) (additional_context : Option String)
    (history : ChatHistory) :
    make_prompt_with_history template system_prompt user_prompt
        additional_context history =
      (history.record_message (template.apply_one .User user_prompt)).map
        (fun h2 =>
          (template.apply_one .System system_prompt ++
             template.insert_history "" history ++
             (match additional_context with
              | some actx => template.apply_one .System actx
              | none => "") ++
             template.generation_lead, h2)) := by
  unfold make_prompt_with_history
  cases hrec : history.record_message (template.apply_one .User user_prompt) with
  | none => cases additional_context <;> simp [hrec]
  | some h2 =>
      cases additional_context <;>
        simp [hrec, insert_history_append template
            (template.apply_one .System system_prompt) history,
          String.append_assoc, String.append_empty]

/-- C3 counterexample: the run on prompt `"A"` terminates with token
sequence `[5, 6, 7]`, of which the first `1` token is the prompt; the
token-space continuation decodes to `"B"`, but `invoke_infallible` returns
`"AAB"` — it sliced the decoded text `"AAAB"` at the prompt's text length
`1`, an in-bounds cut that lands inside the prompt's own decoded text
because decoding expanded the prompt token. -/
theorem invoke_token_space_counterexample :
    invoke_infallible c3_cfg c3_tok 10 0 "A" = some "AAB" ∧
    (gen_loop c3_cfg 10 (c3_tok.encode "A") true 0).map (fun r => r.1) =
      some [5, 6, 7] ∧
    c3_tok.decode (List.drop (c3_tok.encode "A").length [5, 6, 7]) true
      = "B" ∧
    ("AAB" : String) ≠ "B" :=
  ⟨rfl, rfl, rfl, by decide⟩

/-- C3 amended.  On termination `invoke_infallible` decodes the full
accumulated token sequence and slices the decoded text at the prompt's
character/byte length — not at a boundary computed in token space: when the
decoded text is at least as long as the prompt text the suffix from that
offset is returned (even when it cuts into, or past, the prompt's own
decoded text), and when it is shorter the slice panics. -/
theorem invoke_infallible_char_slice {L S : Type} (cfg : GenConfig L S)
    (tok : ExternalTokenizer) (fuel : Nat) (s : S) (prompt : String)
    (T : List Nat) (tr : List (StepInfo L)) (s2 : S)
    (h : gen_loop cfg fuel (tok.encode prompt) true s = some (T, tr, s2)) :
    invoke_infallible cfg tok fuel s prompt =
      string_slice_from (tok.decode T true) prompt.length := by
  show (match gen_loop cfg fuel (tok.encode prompt) true s with
        | none => none
        | some (final_tokens, _, _) =>
            string_slice_from (tok.decode final_tokens true) prompt.length) = _
  rw [h]

/-- Witness for the amended C3 on the stub run. -/
theorem invoke_infallible_char_slice_witness :
    invoke_infallible c3_cfg c3_tok 10 0 "A" =
      string_slice_from (c3_tok.decode [5, 6, 7] true) "A".length :=
  invoke_infallible_char_slice c3_cfg c3_tok 10 0 "A" [5, 6, 7]
    [⟨[5], [5], 0, (), none, (), 6⟩, ⟨[5, 6], [6], 1, (), none, (), 7⟩]
    2 rfl

/-! ### Generation-loop lemmas -/

theorem gen_step_tokens {L S : Type} (cfg : GenConfig L S) (tokens : List Nat)
    (flag : Bool) (s : S) :
    (gen_step cfg tokens flag s).2.1 =
      tokens ++ [(gen_step cfg tokens flag s).1.sampled] := rfl

theorem gen_step_tokens_before {L S : Type} (cfg : GenConfig L S)
    (tokens : List Nat) (flag : Bool) (s : S) :
    (gen_step cfg tokens flag s).1.tokens_before = tokens := rfl

theorem gen_step_ctx_prefill {L S : Type} (cfg : GenConfig L S)
    (tokens : List Nat) (s : S) :
    (gen_step cfg tokens true s).1.ctx = tokens := rfl

theorem gen_step_off_prefill {L S : Type} (cfg : GenConfig L S)
    (tokens : List Nat) (s : S) :
    (gen_step cfg tokens true s).1.seqoff = 0 := rfl

theorem gen_step_ctx_decode {L S : Type} (cfg : GenConfig L S)
    (tokens : List Nat) (s : S) :
    (gen_step cfg tokens false s).1.ctx =
      tokens.drop (tokens.length - 1) := rfl

theorem gen_step_off_decode {L S : Type} (cfg : GenConfig L S)
    (tokens : List Nat) (s : S) :
    (gen_step cfg tokens false s).1.seqoff = tokens.length - 1 := rfl

theorem gen_step_window_of_penalty {L S : Type} (cfg : GenConfig L S)
    (tokens : List Nat) (flag : Bool) (s : S)
    (hp : cfg.repeat_penalty ≠ 1) :
    (gen_step cfg tokens flag s).1.repeat_window =
      some (tokens.drop (tokens.length - cfg.repeat_last_n)) := by
  simp [gen_step, hp]

theorem gen_step_no_penalty {L S : Type} (cfg : GenConfig L S)
    (tokens : List Nat) (flag : Bool) (s : S)
    (hp : cfg.repeat_penalty = 1) :
    (gen_step cfg tokens flag s).1.repeat_window = none ∧
    (gen_step cfg tokens flag s).1.final_logits =
      (gen_step cfg tokens flag s).1.raw_logits := by
  constructor <;> simp [gen_step, hp]

/-- Structure of every terminating run: the final sequence is the initial
one followed by an EOS-free generated block and a final EOS, and the trace
has exactly one record per generated token. -/
theorem gen_loop_eos_structure {L S : Type} (cfg : GenConfig L S) :
    ∀ fuel : Nat, ∀ tokens : List Nat, ∀ flag : Bool, ∀ s : S,
      ∀ T : List Nat, ∀ tr : List (StepInfo L), ∀ s2 : S,
      gen_loop cfg fuel tokens flag s = some (T, tr, s2) →
      ∃ g : List Nat, T = tokens ++ g ++ [cfg.eos] ∧ cfg.eos ∉ g ∧
        tr.length = g.length + 1 := by
  intro fuel
  induction fuel with
  | zero =>
      intro tokens flag s T tr s2 h
      exact absurd h (by simp [gen_loop])
  | succ fuel ih =>
      intro tokens flag s T tr s2 h
      simp only [gen_loop] at h
      by_cases he : (gen_step cfg tokens flag s).1.sampled = cfg.eos
      · rw [if_pos he] at h
        simp only [Option.some.injEq, Prod.mk.injEq] at h
        obtain ⟨hT, htr, -⟩ := h
        refine ⟨[], ?_, by simp, ?_⟩
        · rw [← hT, gen_step_tokens, he]
          simp
        · rw [← htr]
          rfl
      · rw [if_neg he] at h
        cases hrec : gen_loop cfg fuel (gen_step cfg tokens flag s).2.1 false
            (gen_step cfg tokens flag s).2.2 with
        | none => rw [hrec] at h; exact absurd h (by simp)
        | some trip =>
            obtain ⟨T2, tr2, s3⟩ := trip
            rw [hrec] at h
            simp only [Option.some.injEq, Prod.mk.injEq] at h
            obtain ⟨hT, htr, -⟩ := h
            obtain ⟨g, hg1, hg2, hg3⟩ :=
              ih (gen_step cfg tokens flag s).2.1 false
                (gen_step cfg tokens flag s).2.2 T2 tr2 s3 hrec
            refine ⟨(gen_step cfg tokens flag s).1.sampled :: g, ?_, ?_, ?_⟩
            · rw [← hT, hg1, gen_step_tokens]
              simp
            · intro hmem
              rcases List.mem_cons.mp hmem with hmem | hmem
              · exact he hmem.symm
              · exact hg2 hmem
            · rw [← htr]
              simp [hg3]

/-- On a terminating run, the value of `invoke_infallible` is the slice of
the decode of the full final token sequence (skip-special-tokens set) at
the prompt's text length — a returned suffix, or the slice panic when the
decoded text is shorter than the prompt text. -/
theorem invoke_decodes_full_sequence {L S : Type} (cfg : GenConfig L S)
    (tok : ExternalTokenizer) (fuel : Nat) (s : S) (prompt : String)
    (T : List Nat) (tr : List (StepInfo L)) (s2 : S)
    (h : gen_loop cfg fuel (tok.encode prompt) true s = some (T, tr, s2)) :
    invoke_infallible cfg tok fuel s prompt =
      string_slice_from (tok.decode T true) prompt.length := by
  show (match gen_loop cfg fuel (tok.encode prompt) true s with
        | none => none
        | some (final_tokens, _, _) =>
            string_slice_from (tok.decode final_tokens true) prompt.length) = _
  rw [h]

/-- The C4 stub tokenizer ignores a trailing EOS when decoding. -/
theorem c4_tok_skips_eos (ts : List Nat) :
    c4_tok.decode (ts ++ [c4_cfg.eos]) true = c4_tok.decode ts true := by
  simp [c4_tok, c4_cfg, c4_piece]

/-- C4.  The generation loop halts exactly when the sampled token equals
`eos`: every terminating run generates an EOS-free block `g` followed by the
terminating EOS — so if the sampler first yields EOS on the k-th decode
step, exactly `k = g.length + 1` tokens are generated (`tr` has one record
per generated token, matching the source's `generation_count`) — and, for a
tokenizer whose skip-special-tokens decode ignores the EOS token, the
call's outcome (the returned text, or the slice panic when the decoded text
is shorter than the prompt text) is exactly that of the EOS-free sequence:
the EOS never contributes to the returned text. -/
theorem terminates_exactly_at_eos {L S : Type} (cfg : GenConfig L S)
    (tok : ExternalTokenizer) (fuel : Nat) (s : S) (prompt : String)
    (T : List Nat) (tr : List (StepInfo L)) (s2 : S)
    (hdec : ∀ ts : List Nat,
      tok.decode (ts ++ [cfg.eos]) true = tok.decode ts true)
    (h : gen_loop cfg fuel (tok.encode prompt) true s = some (T, tr, s2)) :
    ∃ g : List Nat, T = tok.encode prompt ++ g ++ [cfg.eos] ∧ cfg.eos ∉ g ∧
      tr.length = g.length + 1 ∧
      invoke_infallible cfg tok fuel s prompt =
        string_slice_from (tok.decode (tok.encode prompt ++ g) true)
          prompt.length := by
  obtain ⟨g, hT, hg, hlen⟩ :=
    gen_loop_eos_structure cfg fuel (tok.encode prompt) true s T tr s2 h
  refine ⟨g, hT, hg, hlen, ?_⟩
  have hinv :=
    invoke_decodes_full_sequence cfg tok fuel s prompt T tr s2 h
  rw [hT, hdec (tok.encode prompt ++ g)] at hinv
  exact hinv

/-- Witness for C4: the spec's termination scenario on the stub run —
EOS on the 5th decode step, hence exactly 5 generated tokens (4 non-EOS
plus the terminating EOS) and the EOS absent from the returned text. -/
theorem terminates_exactly_at_eos_witness :
    ∃ g : List Nat, c4_T = c4_tok.encode "ab" ++ g ++ [c4_cfg.eos] ∧
      c4_cfg.eos ∉ g ∧ c4_tr.length = g.length + 1 ∧
      invoke_infallible c4_cfg c4_tok 10 0 "ab" =
        string_slice_from (c4_tok.decode (c4_tok.encode "ab" ++ g) true)
          "ab".length :=
  terminates_exactly_at_eos c4_cfg c4_tok 10 0 "ab" c4_T c4_tr 5
    c4_tok_skips_eos rfl

/-- Trace shape of the decode phase (`flag = false`): starting from a
nonempty sequence of length `n`, the `j`-th record enters with `n + j`
tokens, forwards at offset `n + j - 1`, and its window is the tail of its
entry sequence from that offset. -/
theorem gen_loop_decode_trace {L S : Type} (cfg : GenConfig L S) :
    ∀ fuel : Nat, ∀ tokens : List Nat, ∀ s : S,
      ∀ T : List Nat, ∀ tr : List (StepInfo L), ∀ s2 : S,
      tokens ≠ [] →
      gen_loop cfg fuel tokens false s = some (T, tr, s2) →
      ∀ j : Nat, ∀ hj : j < tr.length,
        (tr.get ⟨j, hj⟩).tokens_before.length = tokens.length + j ∧
        (tr.get ⟨j, hj⟩).seqoff = tokens.length + j - 1 ∧
        (tr.get ⟨j, hj⟩).ctx =
          (tr.get ⟨j, hj⟩).tokens_before.drop (tokens.length + j - 1) := by
  intro fuel
  induction fuel with
  | zero =>
      intro tokens s T tr s2 hne h
      exact absurd h (by simp [gen_loop])
  | succ fuel ih =>
      intro tokens s T tr s2 hne h
      simp only [gen_loop] at h
      by_cases he : (gen_step cfg tokens false s).1.sampled = cfg.eos
      · rw [if_pos he] at h
        simp only [Option.some.injEq, Prod.mk.injEq] at h
        obtain ⟨-, htr, -⟩ := h
        subst htr
        intro j hj
        match j, hj with
        | 0, _ =>
            refine ⟨?_, ?_, ?_⟩
            · simp [List.get, gen_step_tokens_before]
            · simp [List.get, gen_step_off_decode]
            · simp [List.get, gen_step_ctx_decode, gen_step_tokens_before]
      · rw [if_neg he] at h
        cases hrec : gen_loop cfg fuel (gen_step cfg tokens false s).2.1 false
            (gen_step cfg tokens false s).2.2 with
        | none => rw [hrec] at h; exact absurd h (by simp)
        | some trip =>
            obtain ⟨T2, tr2, s3⟩ := trip
            rw [hrec] at h
            simp only [Option.some.injEq, Prod.mk.injEq] at h
            obtain ⟨-, htr, -⟩ := h
            have hlen : ((gen_step cfg tokens false s).2.1).length =
                tokens.length + 1 := by
              rw [gen_step_tokens]
              simp
            have hne2 : (gen_step cfg tokens false s).2.1 ≠ [] := by
              rw [gen_step_tokens]
              simp
            subst htr
            intro j hj
            match j, hj with
            | 0, _ =>
                refine ⟨?_, ?_, ?_⟩
                · simp [List.get, gen_step_tokens_before]
                · simp [List.get, gen_step_off_decode]
                · simp [List.get, gen_step_ctx_decode, gen_step_tokens_before]
            | j + 1, hj =>
                have hj2 : j < tr2.length := by
                  simpa using Nat.lt_of_succ_lt_succ hj
                obtain ⟨h1, h2, h3⟩ := ih (gen_step cfg tokens false s).2.1
                  (gen_step cfg tokens false s).2.2 T2 tr2 s3 hne2 hrec j hj2
                rw [hlen] at h1 h2 h3
                have harith : tokens.length + 1 + j = tokens.length + (j + 1) := by
                  omega
                rw [harith] at h1 h2 h3
                exact ⟨h1, h2, h3⟩

/-- C5.  In every terminating run of the generation loop on a nonempty
token sequence, the model receives exactly one call whose window is the
entire prompt at offset 0 (the prefill, first in the trace), and each
subsequent call passes exactly one token — the most recently appended one,
i.e. the last element of that step's sequence — at offset `n + j` for the
`j`-th decode call, so the offsets `n, n + 1, n + 2, …` are strictly
increasing and never skip a position (the prefill covered positions
`0 … n - 1`); those offsets are all nonzero, so no later call repeats the
prefill's offset-0 full-window call. -/
theorem prefill_then_single_token_calls {L S : Type} (cfg : GenConfig L S)
    (fuel : Nat) (tokens : List Nat) (s : S) (T : List Nat)
    (tr : List (StepInfo L)) (s2 : S) (hne : tokens ≠ [])
    (h : gen_loop cfg fuel tokens true s = some (T, tr, s2)) :
    ∃ i0 : StepInfo L, ∃ rest : List (StepInfo L), tr = i0 :: rest ∧
      i0.ctx = tokens ∧ i0.seqoff = 0 ∧
      ∀ j : Nat, ∀ hj : j < rest.length,
        (rest.get ⟨j, hj⟩).seqoff = tokens.length + j ∧
        0 < (rest.get ⟨j, hj⟩).seqoff ∧
        (rest.get ⟨j, hj⟩).tokens_before.length = tokens.length + j + 1 ∧
        (rest.get ⟨j, hj⟩).ctx =
          (rest.get ⟨j, hj⟩).tokens_before.drop (tokens.length + j) ∧
        (rest.get ⟨j, hj⟩).ctx.length = 1 := by
  have hpos : 0 < tokens.length := List.length_pos.mpr hne
  cases fuel with
  | zero => exact absurd h (by simp [gen_loop])
  | succ fuel =>
      simp only [gen_loop] at h
      by_cases he : (gen_step cfg tokens true s).1.sampled = cfg.eos
      · rw [if_pos he] at h
        simp only [Option.some.injEq, Prod.mk.injEq] at h
        obtain ⟨-, htr, -⟩ := h
        refine ⟨(gen_step cfg tokens true s).1, [], htr.symm,
          gen_step_ctx_prefill cfg tokens s, gen_step_off_prefill cfg tokens s,
          ?_⟩
        intro j hj
        exact absurd hj (by simp)
      · rw [if_neg he] at h
        cases hrec : gen_loop cfg fuel (gen_step cfg tokens true s).2.1 false
            (gen_step cfg tokens true s).2.2 with
        | none => rw [hrec] at h; exact absurd h (by simp)
        | some trip =>
            obtain ⟨T2, tr2, s3⟩ := trip
            rw [hrec] at h
            simp only [Option.some.injEq, Prod.mk.injEq] at h
            obtain ⟨-, htr, -⟩ := h
            have hlen : ((gen_step cfg tokens true s).2.1).length =
                tokens.length + 1 := by
              rw [gen_step_tokens]
              simp
            have hne2 : (gen_step cfg tokens true s).2.1 ≠ [] := by
              rw [gen_step_tokens]
              simp
            refine ⟨(gen_step cfg tokens true s).1, tr2, htr.symm,
              gen_step_ctx_prefill cfg tokens s,
              gen_step_off_prefill cfg tokens s, ?_⟩
            intro j hj
            obtain ⟨h1, h2, h3⟩ := gen_loop_decode_trace cfg fuel
              (gen_step cfg tokens true s).2.1
              (gen_step cfg tokens true s).2.2 T2 tr2 s3 hne2 hrec j hj
            rw [hlen] at h1 h2 h3
            have harith : tokens.length + 1 + j - 1 = tokens.length + j := by
              omega
            rw [harith] at h2 h3
            refine ⟨h2, ?_, by omega, h3, ?_⟩
            · rw [h2]
              omega
            · rw [h3, List.length_drop, h1]
              omega

/-- Witness for C5 on the concrete 5-step stub run. -/
theorem prefill_then_single_token_calls_witness :
    ∃ i0 : StepInfo Unit, ∃ rest : List (StepInfo Unit), c4_tr = i0 :: rest ∧
      i0.ctx = [1, 2] ∧ i0.seqoff = 0 ∧
      ∀ j : Nat, ∀ hj : j < rest.length,
        (rest.get ⟨j, hj⟩).seqoff = ([1, 2] : List Nat).length + j ∧
        0 < (rest.get ⟨j, hj⟩).seqoff ∧
        (rest.get ⟨j, hj⟩).tokens_before.length =
          ([1, 2] : List Nat).length + j + 1 ∧
        (rest.get ⟨j, hj⟩).ctx =
          (rest.get ⟨j, hj⟩).tokens_before.drop
            (([1, 2] : List Nat).length + j) ∧
        (rest.get ⟨j, hj⟩).ctx.length = 1 :=
  prefill_then_single_token_calls c4_cfg 10 [1, 2] 0 c4_T c4_tr 5
    (by decide) rfl

/-- C6 counterexample: with `repeat_penalty = 2 ≠ 1` and
`repeat_last_n = 2`, the run on prompt `[1, 2]` performs one decode step; at
that step zero tokens have been generated so far (its entry sequence is
exactly the prompt), so the claim's window — the last `repeat_last_n`
GENERATED tokens — is `[]`, yet the window actually passed to the rescoring
kernel is `[1, 2]`: prompt tokens. -/
theorem repeat_window_counterexample :
    c6_cfg.repeat_penalty ≠ 1 ∧
    (gen_loop c6_cfg 5 [1, 2] true 0).map
        (fun r => r.2.1.map (fun i => (i.tokens_before, i.repeat_window))) =
      some [([1, 2], some [1, 2])] ∧
    some [(([1, 2] : List Nat), some ([1, 2] : List Nat))] ≠
      some [(([1, 2] : List Nat), some ([] : List Nat))] :=
  ⟨by decide, rfl, by decide⟩

/-- C6 amended.  On every decode step where `repeat_penalty ≠ 1`, the
logits are rescored using the trailing window of the last `repeat_last_n`
tokens of the ENTIRE token sequence at that step — prompt tokens included
when fewer than `repeat_last_n` tokens have been generated — not of the
generated tokens alone. -/
theorem repeat_window_whole_sequence {L S : Type} (cfg : GenConfig L S)
    (hp : cfg.repeat_penalty ≠ 1) :
    ∀ fuel : Nat, ∀ tokens : List Nat, ∀ flag : Bool, ∀ s : S,
      ∀ T : List Nat, ∀ tr : List (StepInfo L), ∀ s2 : S,
      gen_loop cfg fuel tokens flag s = some (T, tr, s2) →
      ∀ i ∈ tr, i.repeat_window =
        some (i.tokens_before.drop
          (i.tokens_before.length - cfg.repeat_last_n)) := by
  intro fuel
  induction fuel with
  | zero =>
      intro tokens flag s T tr s2 h
      exact absurd h (by simp [gen_loop])
  | succ fuel ih =>
      intro tokens flag s T tr s2 h
      simp only [gen_loop] at h
      by_cases he : (gen_step cfg tokens flag s).1.sampled = cfg.eos
      · rw [if_pos he] at h
        simp only [Option.some.injEq, Prod.mk.injEq] at h
        obtain ⟨-, htr, -⟩ := h
        subst htr
        intro i hi
        obtain rfl := List.mem_singleton.mp hi
        rw [gen_step_window_of_penalty cfg tokens flag s hp,
          gen_step_tokens_before]
      · rw [if_neg he] at h
        cases hrec : gen_loop cfg fuel (gen_step cfg tokens flag s).2.1 false
            (gen_step cfg tokens flag s).2.2 with
        | none => rw [hrec] at h; exact absurd h (by simp)
        | some trip =>
            obtain ⟨T2, tr2, s3⟩ := trip
            rw [hrec] at h
            simp only [Option.some.injEq, Prod.mk.injEq] at h
            obtain ⟨-, htr, -⟩ := h
            subst htr
            intro i hi
            rcases List.mem_cons.mp hi with rfl | hi
            · rw [gen_step_window_of_penalty cfg tokens flag s hp,
                gen_step_tokens_before]
            · exact ih (gen_step cfg tokens flag s).2.1 false
                (gen_step cfg tokens flag s).2.2 T2 tr2 s3 hrec i hi

/-- Witness for the amended C6 on the stub run: the prefill-step window is
the last 2 tokens of its full entry sequence. -/
theorem repeat_window_whole_sequence_witness :
    c6_step.repeat_window =
      some (c6_step.tokens_before.drop
        (c6_step.tokens_before.length - c6_cfg.repeat_last_n)) :=
  repeat_window_whole_sequence c6_cfg (by decide) 5 [1, 2] true 0 [1, 2, 7]
    [c6_step] 1 rfl c6_step (by decide)

/-- C7.  When `repeat_penalty = 1.0` the rescoring step is the identity: on
every step of every run, the logits handed to the sampler are exactly the
logits produced by the model forward, and no rescoring window is ever
formed. -/
theorem repeat_penalty_noop {L S : Type} (cfg : GenConfig L S)
    (hp : cfg.repeat_penalty = 1) :
    ∀ fuel : Nat, ∀ tokens : List Nat, ∀ flag : Bool, ∀ s : S,
      ∀ T : List Nat, ∀ tr : List (StepInfo L), ∀ s2 : S,
      gen_loop cfg fuel tokens flag s = some (T, tr, s2) →
      ∀ i ∈ tr, i.final_logits = i.raw_logits ∧ i.repeat_window = none := by
  intro fuel
  induction fuel with
  | zero =>
      intro tokens flag s T tr s2 h
      exact absurd h (by simp [gen_loop])
  | succ fuel ih =>
      intro tokens flag s T tr s2 h
      simp only [gen_loop] at h
      by_cases he : (gen_step cfg tokens flag s).1.sampled = cfg.eos
      · rw [if_pos he] at h
        simp only [Option.some.injEq, Prod.mk.injEq] at h
        obtain ⟨-, htr, -⟩ := h
        subst htr
        intro i hi
        obtain rfl := List.mem_singleton.mp hi
        exact ⟨(gen_step_no_penalty cfg tokens flag s hp).2,
          (gen_step_no_penalty cfg tokens flag s hp).1⟩
      · rw [if_neg he] at h
        cases hrec : gen_loop cfg fuel (gen_step cfg tokens flag s).2.1 false
            (gen_step cfg tokens flag s).2.2 with
        | none => rw [hrec] at h; exact absurd h (by simp)
        | some trip =>
            obtain ⟨T2, tr2, s3⟩ := trip
            rw [hrec] at h
            simp only [Option.some.injEq, Prod.mk.injEq] at h
            obtain ⟨-, htr, -⟩ := h
            subst htr
            intro i hi
            rcases List.mem_cons.mp hi with rfl | hi
            · exact ⟨(gen_step_no_penalty cfg tokens flag s hp).2,
                (gen_step_no_penalty cfg tokens flag s hp).1⟩
            · exact ih (gen_step cfg tokens flag s).2.1 false
                (gen_step cfg tokens flag s).2.2 T2 tr2 s3 hrec i hi

/-- Witness for C7 on the stub run with numeric logits. -/
theorem repeat_penalty_noop_witness :
    c7_step.final_logits = c7_step.raw_logits ∧ c7_step.repeat_window = none :=
  repeat_penalty_noop c7_cfg rfl 5 [1, 2] true 0 [1, 2, 7] [c7_step] 1 rfl
    c7_step (by decide)

/-- C9.  Generation is deterministic: the loop is a pure function of the
configuration (which carries the stubbed model, the rescoring kernel and the
sampler — `LogitsProcessor::new(seed, Some(temperature), top_p)` makes the
sampler a deterministic function of its seeded internal state, and
temperature 0 selects arg-max), the fuel, the encoded prompt, and the
initial sampler state determined by the seed; two runs with equal inputs
produce the identical result, token sequence included. -/
theorem generation_deterministic {L S : Type} (cfg1 cfg2 : GenConfig L S)
    (fuel1 fuel2 : Nat) (prompt1 prompt2 : List Nat) (s1 s2 : S)
    (hcfg : cfg1 = cfg2) (hfuel : fuel1 = fuel2) (hprompt : prompt1 = prompt2)
    (hseed : s1 = s2) :
    gen_loop cfg1 fuel1 prompt1 true s1 =
      gen_loop cfg2 fuel2 prompt2 true s2 := by
  subst hcfg
  subst hfuel
  subst hprompt
  subst hseed
  rfl

/-- Witness for C9: two identically configured stub runs coincide. -/
theorem generation_deterministic_witness :
    gen_loop c4_cfg 10 [1, 2] true 0 = gen_loop c4_cfg 10 [1, 2] true 0 :=
  generation_deterministic c4_cfg c4_cfg 10 10 [1, 2] [1, 2] 0 0
    rfl rfl rfl rfl

end Vocllm
